import Mathlib

/-!
Verification of the crtools filtered-median core.

This development shallowly embeds the C sources of the repository:

* `src/src/ftools/sorting.c` and `src/src/ftools/sorting/sorting.c` —
  fixed-size comparator networks (`sort3`, `sort4`, `sort9`, `sort25`,
  `sort27`, `sort27b`), the array insertion sort, and the adaptive
  dispatcher `sort_doubles`;
* `src/fmedian_ext.c` — the comparator `compare_int16`, the median
  extractor `compute_median`, and the grid filter driver `fmedian`.

Comparator networks act on lists; the C macro
`SWAP(a, b)` (`a := min a b; b := max a b`) becomes `cmpSwap`.  Double
values are modelled by an arbitrary linear order (instantiated at `ℤ`):
on non-NaN doubles the C comparisons are exactly the linear order.
`qsort` from libc is not part of the repository; it is modelled by its
contract (a comparison sort for the comparator handed to it).

Network correctness is established through the classical 0/1 principle:
a comparator network sorts every input over every linear order as soon as
it sorts every 0/1 input.  The exhaustive 0/1 check is evaluated on
bitmask encodings of boolean vectors so that the kernel can run it with
native natural-number arithmetic.
-/

namespace Crtools

/-! ### Comparator networks: embedding of the SWAP macro -/

/-- One compare-and-swap step of the C macro
`SWAP(d[i], d[j])`: position `i` receives the minimum and position `j`
the maximum of the two values.  Out-of-range indices leave the list
unchanged (never exercised by the networks below, whose indices are all
in range). -/
def cmpSwap {α : Type} [LinearOrder α] (l : List α) (i j : ℕ) : List α :=
  match l[i]?, l[j]? with
  | some a, some b => (l.set i (min a b)).set j (max a b)
  | _, _ => l

/-- Running a comparator network: the fixed, input-independent sequence of
compare-and-swap operations applied left to right. -/
def runNet {α : Type} [LinearOrder α] (net : List (ℕ × ℕ)) (l : List α) : List α :=
  net.foldl (fun l p => cmpSwap l p.1 p.2) l

theorem runNet_nil {α : Type} [LinearOrder α] (l : List α) : runNet [] l = l := rfl

theorem runNet_cons {α : Type} [LinearOrder α] (p : ℕ × ℕ) (net : List (ℕ × ℕ)) (l : List α) :
    runNet (p :: net) l = runNet net (cmpSwap l p.1 p.2) := rfl

theorem length_cmpSwap {α : Type} [LinearOrder α] (l : List α) (i j : ℕ) :
    (cmpSwap l i j).length = l.length := by
  unfold cmpSwap
  cases l[i]? <;> cases l[j]? <;> simp

theorem length_runNet {α : Type} [LinearOrder α] (net : List (ℕ × ℕ)) (l : List α) :
    (runNet net l).length = l.length := by
  induction net generalizing l with
  | nil => rfl
  | cons p net ih => rw [runNet_cons, ih, length_cmpSwap]

theorem set_of_getElem? {α : Type} : ∀ (l : List α) (i : ℕ) (a : α),
    l[i]? = some a → l.set i a = l := by
  intro l
  induction l with
  | nil => intro i a h; simp at h
  | cons x t ih =>
    intro i a h
    cases i with
    | zero => simp at h; simp [h]
    | succ m => simp at h; simp [ih m a h]

theorem cons_set_perm {α : Type} : ∀ (l : List α) (k : ℕ) (a b : α),
    l[k]? = some b → (b :: l.set k a).Perm (a :: l) := by
  intro l
  induction l with
  | nil => intro k a b h; simp at h
  | cons x t ih =>
    intro k a b h
    cases k with
    | zero =>
      have h2 : x = b := by simpa using h
      rw [List.set_cons_zero, ← h2]
      exact List.Perm.swap a x t
    | succ m =>
      simp at h
      have h1 : ((x :: t).set (m + 1) a) = x :: t.set m a := by simp
      rw [h1]
      exact ((List.Perm.swap x b (t.set m a)).trans
        (List.Perm.cons x (ih m a b h))).trans (List.Perm.swap a x t)

theorem cmpSwap_cons_succ {α : Type} [LinearOrder α] (x : α) (t : List α) (i j : ℕ) :
    cmpSwap (x :: t) (i + 1) (j + 1) = x :: cmpSwap t i j := by
  unfold cmpSwap
  simp only [List.getElem?_cons_succ]
  cases t[i]? <;> cases t[j]? <;> simp

theorem cmpSwap_perm {α : Type} [LinearOrder α] :
    ∀ (l : List α) (i j : ℕ), i < j → (cmpSwap l i j).Perm l := by
  intro l
  induction l with
  | nil =>
    intro i j _
    unfold cmpSwap
    simp
  | cons x t ih =>
    intro i j hij
    cases i with
    | zero =>
      cases j with
      | zero => exact absurd hij (lt_irrefl 0)
      | succ k =>
        unfold cmpSwap
        cases hk : t[k]? with
        | none => simp [hk]
        | some b =>
          simp only [List.getElem?_cons_zero, List.getElem?_cons_succ, hk]
          rcases le_total x b with hxb | hbx
          · rw [min_eq_left hxb, max_eq_right hxb]
            simp only [List.set_cons_zero, List.set_cons_succ]
            rw [set_of_getElem? t k b hk]
          · rw [min_eq_right hbx, max_eq_left hbx]
            simp only [List.set_cons_zero, List.set_cons_succ]
            exact cons_set_perm t k x b hk
    | succ m =>
      cases j with
      | zero => exact absurd hij (Nat.not_lt_zero _).elim
      | succ k =>
        rw [cmpSwap_cons_succ]
        exact List.Perm.cons x (ih m k (Nat.succ_lt_succ_iff.mp hij))

/-- Every comparator of a network points "uphill": index pairs `(i, j)`
with `i < j`, as in every network of the sources. -/
def netAscending (net : List (ℕ × ℕ)) : Prop := ∀ p ∈ net, p.1 < p.2

instance (net : List (ℕ × ℕ)) : Decidable (netAscending net) := by
  unfold netAscending; infer_instance

theorem runNet_perm {α : Type} [LinearOrder α] (net : List (ℕ × ℕ)) (l : List α)
    (h : netAscending net) : (runNet net l).Perm l := by
  induction net generalizing l with
  | nil => exact List.Perm.refl l
  | cons p net ih =>
    rw [runNet_cons]
    exact (ih (cmpSwap l p.1 p.2) (fun q hq => h q (List.mem_cons_of_mem p hq))).trans
      (cmpSwap_perm l p.1 p.2 (h p (List.mem_cons_self p net)))

/-! ### Monotone maps commute with comparator networks -/

theorem cmpSwap_map {α β : Type} [LinearOrder α] [LinearOrder β] (f : α → β)
    (hf : Monotone f) (l : List α) (i j : ℕ) :
    cmpSwap (l.map f) i j = (cmpSwap l i j).map f := by
  unfold cmpSwap
  rw [List.getElem?_map, List.getElem?_map]
  cases h1 : l[i]? with
  | none => simp
  | some a =>
    cases h2 : l[j]? with
    | none => simp
    | some b =>
      simp only [Option.map_some']
      rw [List.map_set, List.map_set, hf.map_min, hf.map_max]

theorem runNet_map {α β : Type} [LinearOrder α] [LinearOrder β] (f : α → β)
    (hf : Monotone f) (net : List (ℕ × ℕ)) (l : List α) :
    runNet net (l.map f) = (runNet net l).map f := by
  induction net generalizing l with
  | nil => rfl
  | cons p net ih => rw [runNet_cons, runNet_cons, cmpSwap_map f hf, ih]

/-! ### Boolean vectors and their bitmask encoding

The exhaustive 0/1 check of a network is executed on bitmask encodings of
boolean vectors (bit `i` of the mask is entry `i` of the vector), so that
the check reduces to native natural-number arithmetic. -/

/-- Numeric value of one boolean entry. -/
def bitVal : Bool → ℕ
  | false => 0
  | true => 1

/-- Bitmask encoding of a boolean vector: bit `i` of the mask is entry `i`. -/
def maskOf : List Bool → ℕ
  | [] => 0
  | b :: t => bitVal b + 2 * maskOf t

/-- Bit `i` of a mask. -/
def maskBit (m i : ℕ) : ℕ := m / 2 ^ i % 2

/-- Replace bit `i` of a mask by `b ∈ {0, 1}`. -/
def setBitTo (m i b : ℕ) : ℕ := m % 2 ^ i + b * 2 ^ i + m / 2 ^ (i + 1) * 2 ^ (i + 1)

/-- Compare-and-swap on the mask encoding: bit `i` receives the minimum
(`a * b`) and bit `j` the maximum (`a + b - a * b`) of the two bits. -/
def cmpSwapM (m i j : ℕ) : ℕ :=
  let a := maskBit m i
  let b := maskBit m j
  setBitTo (setBitTo m i (a * b)) j (a + b - a * b)

/-- Running a comparator network on the mask encoding. -/
def runNetM : List (ℕ × ℕ) → ℕ → ℕ
  | [], m => m
  | p :: net, m => runNetM net (cmpSwapM m p.1 p.2)

/-- Bits `0 .. n-1` of the mask are ascending. -/
def sortedMask (n m : ℕ) : Bool :=
  (List.range (n - 1)).all (fun i => maskBit m i ≤ maskBit m (i + 1))

/-- Exhaustive check: every mask below the counter runs to a sorted mask. -/
def allMasksCheck (net : List (ℕ × ℕ)) (n : ℕ) : ℕ → Bool
  | 0 => true
  | m + 1 => sortedMask n (runNetM net m) && allMasksCheck net n m

theorem bitVal_lt_two (b : Bool) : bitVal b < 2 := by cases b <;> simp [bitVal]

theorem maskOf_lt (v : List Bool) : maskOf v < 2 ^ v.length := by
  induction v with
  | nil => simp [maskOf]
  | cons b t ih =>
    have hb := bitVal_lt_two b
    simp only [maskOf, List.length_cons, pow_succ]
    omega

theorem maskOf_div_two (b : Bool) (t : List Bool) : maskOf (b :: t) / 2 = maskOf t := by
  have hb := bitVal_lt_two b
  simp only [maskOf]
  omega

theorem maskBit_maskOf : ∀ (v : List Bool) (i : ℕ), maskBit (maskOf v) i = bitVal (v.getD i false) := by
  intro v
  induction v with
  | nil => intro i; simp [maskBit, maskOf, bitVal, Nat.zero_div]
  | cons b t ih =>
    intro i
    cases i with
    | zero =>
      have hb := bitVal_lt_two b
      simp only [maskBit, maskOf, pow_zero, Nat.div_one, List.getD_cons_zero]
      omega
    | succ m =>
      have h1 : maskBit (maskOf (b :: t)) (m + 1) = maskBit (maskOf t) m := by
        simp only [maskBit, pow_succ, mul_comm (2 ^ m) 2, ← Nat.div_div_eq_div_mul,
          maskOf_div_two]
      rw [h1, List.getD_cons_succ]
      exact ih m

theorem mod_double (c k d : ℕ) (hc : c < 2) (hd : 0 < d) :
    (c + 2 * k) % (2 * d) = c + 2 * (k % d) := by
  conv_lhs => rw [← Nat.div_add_mod k d]
  have h1 : c + 2 * (d * (k / d) + k % d) = (c + 2 * (k % d)) + (2 * d) * (k / d) := by ring
  rw [h1, Nat.add_mul_mod_self_left, Nat.mod_eq_of_lt]
  have := Nat.mod_lt k hd
  omega

theorem maskOf_set : ∀ (v : List Bool) (i : ℕ) (b : Bool), i < v.length →
    maskOf (v.set i b) = setBitTo (maskOf v) i (bitVal b) := by
  intro v
  induction v with
  | nil => intro i b h; simp at h
  | cons a t ih =>
    intro i b h
    cases i with
    | zero =>
      have ha := bitVal_lt_two a
      have hd := maskOf_div_two a t
      simp only [List.set_cons_zero, maskOf, setBitTo, pow_zero, pow_one, Nat.mod_one]
      omega
    | succ m =>
      have hm : m < t.length := by simpa using h
      have ha := bitVal_lt_two a
      simp only [List.set_cons_succ, maskOf, ih m b hm, setBitTo]
      have e1 : maskOf (a :: t) % 2 ^ (m + 1) = bitVal a + 2 * (maskOf t % 2 ^ m) := by
        have := mod_double (bitVal a) (maskOf t) (2 ^ m) ha (Nat.pos_pow_of_pos m (by norm_num))
        simpa [maskOf, pow_succ, mul_comm] using this
      have e2 : maskOf (a :: t) / 2 ^ (m + 1 + 1) = maskOf t / 2 ^ (m + 1) := by
        have h2 : (2 : ℕ) ^ (m + 1 + 1) = 2 * 2 ^ (m + 1) := by ring
        rw [h2, ← Nat.div_div_eq_div_mul, maskOf_div_two]
      simp only [maskOf] at e1 e2
      rw [e1, e2]
      have h3 : (2 : ℕ) ^ (m + 1) = 2 * 2 ^ m := by ring
      have h4 : (2 : ℕ) ^ (m + 1 + 1) = 2 * (2 * 2 ^ m) := by ring
      rw [h3, h4]
      ring

/-- `cmpSwap` specialised to booleans with primitive operations
(`min` is `and`, `max` is `or`). -/
def cmpSwapB (l : List Bool) (i j : ℕ) : List Bool :=
  match l[i]?, l[j]? with
  | some a, some b => (l.set i (a && b)).set j (a || b)
  | _, _ => l

/-- Boolean network run used by the exhaustive check. -/
def runNetB (net : List (ℕ × ℕ)) (l : List Bool) : List Bool :=
  net.foldl (fun l p => cmpSwapB l p.1 p.2) l

theorem min_bool (a b : Bool) : min a b = (a && b) := by cases a <;> cases b <;> rfl

theorem max_bool (a b : Bool) : max a b = (a || b) := by cases a <;> cases b <;> rfl

theorem cmpSwapB_eq (l : List Bool) (i j : ℕ) : cmpSwapB l i j = cmpSwap l i j := by
  unfold cmpSwap cmpSwapB
  cases l[i]? <;> cases l[j]? <;> simp [min_bool, max_bool]

theorem runNetB_eq (net : List (ℕ × ℕ)) (l : List Bool) : runNetB net l = runNet net l := by
  induction net generalizing l with
  | nil => rfl
  | cons p net ih =>
    show runNetB net (cmpSwapB l p.1 p.2) = runNet net (cmpSwap l p.1 p.2)
    rw [ih, cmpSwapB_eq]

theorem length_cmpSwapB (l : List Bool) (i j : ℕ) : (cmpSwapB l i j).length = l.length := by
  rw [cmpSwapB_eq, length_cmpSwap]

theorem bitVal_and (a b : Bool) : bitVal (a && b) = bitVal a * bitVal b := by
  cases a <;> cases b <;> rfl

theorem bitVal_or (a b : Bool) : bitVal (a || b) = bitVal a + bitVal b - bitVal a * bitVal b := by
  cases a <;> cases b <;> rfl

theorem getD_of_getElem? {α : Type} (l : List α) (i : ℕ) (a d : α) (h : l[i]? = some a) :
    l.getD i d = a := by
  simp [List.getD, h]

theorem cmpSwapM_maskOf (v : List Bool) (i j : ℕ) (hi : i < v.length) (hj : j < v.length) :
    cmpSwapM (maskOf v) i j = maskOf (cmpSwapB v i j) := by
  have hgi : v[i]? = some v[i] := List.getElem?_eq_getElem hi
  have hgj : v[j]? = some v[j] := List.getElem?_eq_getElem hj
  have hbi : maskBit (maskOf v) i = bitVal v[i] := by
    rw [maskBit_maskOf, getD_of_getElem? v i v[i] false hgi]
  have hbj : maskBit (maskOf v) j = bitVal v[j] := by
    rw [maskBit_maskOf, getD_of_getElem? v j v[j] false hgj]
  have hset : cmpSwapB v i j = (v.set i (v[i] && v[j])).set j (v[i] || v[j]) := by
    unfold cmpSwapB
    rw [hgi, hgj]
  rw [hset, maskOf_set _ j _ (by simpa using hj), maskOf_set _ i _ hi]
  unfold cmpSwapM
  rw [hbi, hbj, bitVal_and, bitVal_or]

theorem runNetM_maskOf (net : List (ℕ × ℕ)) : ∀ (v : List Bool),
    (∀ p ∈ net, p.1 < v.length ∧ p.2 < v.length) →
    runNetM net (maskOf v) = maskOf (runNetB net v) := by
  induction net with
  | nil => intro v _; rfl
  | cons p net ih =>
    intro v hb
    show runNetM net (cmpSwapM (maskOf v) p.1 p.2) = maskOf (runNetB net (cmpSwapB v p.1 p.2))
    obtain ⟨h1, h2⟩ := hb p (List.mem_cons_self p net)
    rw [cmpSwapM_maskOf v p.1 p.2 h1 h2]
    exact ih (cmpSwapB v p.1 p.2)
      (fun q hq => by
        rw [length_cmpSwapB]
        exact hb q (List.mem_cons_of_mem p hq))

theorem allMasksCheck_spec (net : List (ℕ × ℕ)) (n : ℕ) :
    ∀ (bound : ℕ), allMasksCheck net n bound = true →
    ∀ m < bound, sortedMask n (runNetM net m) = true := by
  intro bound
  induction bound with
  | zero => intro _ m hm; omega
  | succ k ih =>
    intro h m hm
    rw [show allMasksCheck net n (k + 1) =
        (sortedMask n (runNetM net k) && allMasksCheck net n k) from rfl,
      Bool.and_eq_true] at h
    rcases Nat.lt_succ_iff_lt_or_eq.mp hm with h2 | h2
    · exact ih h.2 m h2
    · rw [h2]; exact h.1

theorem bitVal_le (a b : Bool) (h : bitVal a ≤ bitVal b) : a ≤ b := by
  cases a <;> cases b <;> simp_all [bitVal]

theorem sorted_of_sortedMask (w : List Bool) (h : sortedMask w.length (maskOf w) = true) :
    w.Sorted (· ≤ ·) := by
  unfold sortedMask at h
  rw [List.all_eq_true] at h
  rw [List.Sorted, ← List.chain'_iff_pairwise, List.chain'_iff_get]
  intro i hi
  have hmem : i ∈ List.range (w.length - 1) := List.mem_range.mpr hi
  have hadj := of_decide_eq_true (h i hmem)
  rw [maskBit_maskOf, maskBit_maskOf] at hadj
  have hi1 : i < w.length := by omega
  have hi2 : i + 1 < w.length := by omega
  rw [getD_of_getElem? w i w[i] false (List.getElem?_eq_getElem hi1),
    getD_of_getElem? w (i + 1) w[i + 1] false (List.getElem?_eq_getElem hi2)] at hadj
  have := bitVal_le _ _ hadj
  simpa using this

/-- The 0/1 principle: if a network sorts every boolean vector of the
input's length, it sorts the input, over any linear order. -/
theorem sorted_runNet_of_bool (net : List (ℕ × ℕ)) {α : Type} [LinearOrder α] (l : List α)
    (hB : ∀ v : List Bool, v.length = l.length → (runNet net v).Sorted (· ≤ ·)) :
    (runNet net l).Sorted (· ≤ ·) := by
  by_contra hns
  rw [List.Sorted, List.pairwise_iff_getElem] at hns
  push_neg at hns
  obtain ⟨i, j, hi, hj, hij, hne⟩ := hns
  set o := runNet net l with ho
  set t := o[i] with ht
  set f : α → Bool := fun x => decide (t ≤ x) with hfdef
  have hf : Monotone f := by
    intro a b hab
    by_cases hta : t ≤ a
    · simp [hfdef, hta, le_trans hta hab]
    · simp [hfdef, hta, Bool.false_le]
  have hrun : runNet net (l.map f) = o.map f := runNet_map f hf net l
  have hs := hB (l.map f) (by simp)
  rw [hrun, List.Sorted, List.pairwise_iff_getElem] at hs
  have hlen : (o.map f).length = o.length := List.length_map o f
  have hthis := hs i j (by omega) (by omega) hij
  rw [List.getElem_map, List.getElem_map] at hthis
  have hfi : f o[i] = true := by simp [hfdef, ht]
  have hfj : f o[j] = false := by
    have hlt : ¬ t ≤ o[j] := not_le.mpr hne
    simp [hfdef, hlt]
  rw [hfi, hfj] at hthis
  exact absurd hthis (by simp)

/-- Main correctness transfer: a network whose indices are in range and
whose exhaustive bitmask check succeeds sorts every list of the designed
length over every linear order. -/
theorem sorted_runNet_of_maskCheck (net : List (ℕ × ℕ)) (n : ℕ)
    (hbound : ∀ p ∈ net, p.1 < n ∧ p.2 < n)
    (hchk : allMasksCheck net n (2 ^ n) = true)
    {α : Type} [LinearOrder α] (l : List α) (hl : l.length = n) :
    (runNet net l).Sorted (· ≤ ·) := by
  apply sorted_runNet_of_bool
  intro v hv
  rw [← runNetB_eq]
  have hvn : v.length = n := hv.trans hl
  have h1 : runNetM net (maskOf v) = maskOf (runNetB net v) :=
    runNetM_maskOf net v (fun p hp => by rw [hvn]; exact hbound p hp)
  have h2 : maskOf v < 2 ^ n := hvn ▸ maskOf_lt v
  have h3 := allMasksCheck_spec net n (2 ^ n) hchk (maskOf v) h2
  rw [h1] at h3
  have hlen : (runNetB net v).length = v.length := by
    rw [runNetB_eq, length_runNet]
  apply sorted_of_sortedMask
  rw [hlen, hvn]
  exact h3

/-! ### Insertion sort (`insertion_sort` in `sorting/sorting.c`)

The C routine keeps the prefix `d[0..i-1]` sorted and inserts `d[i]` by
shifting every element greater than the key one slot to the right; the
inner `while (j >= 0 && values[j] > key)` loop stops at the first element
`≤ key` scanning from the right, so the key lands after all elements that
are `≤` it.  On the sorted prefix, scanning from the left this is:
insert the key in front of the first strictly greater element. -/

/-- One outer iteration of the C insertion sort: insert `key` into the
sorted prefix `l`, after every element `≤ key` (condition `values[j] > key`). -/
def insertKey {α : Type} [LinearOrder α] (key : α) : List α → List α
  | [] => [key]
  | x :: xs => if x > key then key :: x :: xs else x :: insertKey key xs

/-- The C `insertion_sort(values, count)`: fold the outer loop over the
array, growing the sorted prefix from the left. -/
def insertion_sort {α : Type} [LinearOrder α] (l : List α) : List α :=
  l.foldl (fun acc x => insertKey x acc) []

theorem insertKey_perm {α : Type} [LinearOrder α] (key : α) (l : List α) :
    (insertKey key l).Perm (key :: l) := by
  induction l with
  | nil => exact List.Perm.refl _
  | cons x xs ih =>
    unfold insertKey
    by_cases h : x > key
    · simp [h]
    · simp only [h, if_false]
      exact (List.Perm.cons x ih).trans (List.Perm.swap key x xs)

theorem insertKey_sorted {α : Type} [LinearOrder α] (key : α) (l : List α)
    (h : l.Sorted (· ≤ ·)) : (insertKey key l).Sorted (· ≤ ·) := by
  induction l with
  | nil => simp [insertKey]
  | cons x xs ih =>
    rw [List.sorted_cons] at h
    unfold insertKey
    by_cases hx : x > key
    · simp only [hx, if_true]
      rw [List.sorted_cons]
      constructor
      · intro b hb
        rcases List.mem_cons.mp hb with hb | hb
        · exact hb ▸ le_of_lt hx
        · exact le_trans (le_of_lt hx) (h.1 b hb)
      · rw [List.sorted_cons]
        exact h
    · simp only [hx, if_false]
      rw [List.sorted_cons]
      constructor
      · intro b hb
        rcases List.mem_cons.mp ((insertKey_perm key xs).mem_iff.mp hb) with hb | hb
        · exact hb ▸ le_of_not_lt hx
        · exact h.1 b hb
      · exact ih h.2

theorem foldl_insertKey_perm {α : Type} [LinearOrder α] :
    ∀ (l acc : List α), (l.foldl (fun acc x => insertKey x acc) acc).Perm (l ++ acc) := by
  intro l
  induction l with
  | nil => intro acc; simp
  | cons x xs ih =>
    intro acc
    rw [List.foldl_cons]
    exact ((ih (insertKey x acc)).trans
      (List.Perm.append_left xs (insertKey_perm x acc))).trans
      List.perm_middle

theorem foldl_insertKey_sorted {α : Type} [LinearOrder α] :
    ∀ (l acc : List α), acc.Sorted (· ≤ ·) →
      (l.foldl (fun acc x => insertKey x acc) acc).Sorted (· ≤ ·) := by
  intro l
  induction l with
  | nil => intro acc h; simpa using h
  | cons x xs ih =>
    intro acc h
    rw [List.foldl_cons]
    exact ih (insertKey x acc) (insertKey_sorted x acc h)

theorem insertion_sort_perm {α : Type} [LinearOrder α] (l : List α) :
    (insertion_sort l).Perm l := by
  have := foldl_insertKey_perm l []
  simpa [insertion_sort] using this

theorem insertion_sort_sorted {α : Type} [LinearOrder α] (l : List α) :
    (insertion_sort l).Sorted (· ≤ ·) := by
  exact foldl_insertKey_sorted l [] (by simp)

/-! ### Reference comparison sort

`qsort` from libc with the comparator `compare_double` (respectively
`compare_int16`) is external to the repository; its contract is to sort
the buffer ascending by the comparator's total order.  We model it by
Mathlib's insertion sort on the linear order.  Over a linear order the
sorted permutation of a list is unique, so any correct comparison sort is
element-for-element equal to this reference. -/

def referenceSort {α : Type} [LinearOrder α] (l : List α) : List α :=
  List.insertionSort (· ≤ ·) l

theorem referenceSort_sorted {α : Type} [LinearOrder α] (l : List α) :
    (referenceSort l).Sorted (· ≤ ·) := List.sorted_insertionSort (· ≤ ·) l

theorem referenceSort_perm {α : Type} [LinearOrder α] (l : List α) :
    (referenceSort l).Perm l := List.perm_insertionSort (· ≤ ·) l

/-- Uniqueness of the sorted permutation: anything that is sorted and a
permutation of `l` is element-for-element the reference sort of `l`. -/
theorem eq_referenceSort {α : Type} [LinearOrder α] {m l : List α}
    (hp : m.Perm l) (hs : m.Sorted (· ≤ ·)) : m = referenceSort l :=
  List.eq_of_perm_of_sorted (hp.trans (referenceSort_perm l).symm) hs (referenceSort_sorted l)

theorem sorted_of_length_le_one {α : Type} [LinearOrder α] (l : List α)
    (h : l.length ≤ 1) : l.Sorted (· ≤ ·) := by
  match l, h with
  | [], _ => exact List.sorted_nil
  | [a], _ => exact List.sorted_singleton a

/-! ### The comparator networks of the sources

Index pairs transcribed one-for-one from the SWAP sequences of
`src/src/ftools/sorting/sorting.c` (suffix-free names) and
`src/src/ftools/sorting.c` (the older top-level file; its 3-element
network differs, suffix `t`). -/

/-- `sort3` of `sorting/sorting.c`. -/
def sort3_net : List (ℕ × ℕ) := [(0,2),(0,1),(1,2)]

/-- `sort3` of the top-level `ftools/sorting.c`. -/
def sort3t_net : List (ℕ × ℕ) := [(0,1),(1,2),(0,1)]

/-- `sort4` of `sorting/sorting.c`. -/
def sort4_net : List (ℕ × ℕ) := [(0,2),(1,3),(0,1),(2,3),(1,2)]

/-- `sort9` (identical in both files). -/
def sort9_net : List (ℕ × ℕ) :=
  [(0,1),(3,4),(6,7),(1,2),(4,5),(7,8),(0,1),(3,4),(6,7),
   (0,3),(3,6),(0,3),
   (1,4),(4,7),(1,4),(2,5),(5,8),(2,5),(1,3),(5,7),(2,6),(4,6),(2,4),(2,3),(5,6)]

/-- The `case 2` branch of `sort_doubles`: a single `SWAP(values[0], values[1])`. -/
def sort2_net : List (ℕ × ℕ) := [(0,1)]

/-- Offset a network, as the C code does by passing `&d[k]`. -/
def shiftNet (k : ℕ) (net : List (ℕ × ℕ)) : List (ℕ × ℕ) :=
  net.map (fun p => (p.1 + k, p.2 + k))

/-- First pass of `sort25`: the 9-comparator 5-element network applied to
the five groups `d[0..4], d[5..9], ..., d[20..24]` (the loop body). -/
def sort5group_net : List (ℕ × ℕ) :=
  [(0,1),(3,4),(0,2),(1,2),(0,1),(2,3),(1,2),(3,4),(2,3)]

/-- The network pass of `sort25` (the `for (i = 0; i < 25; i += 5)` loop). -/
def sort25_net : List (ℕ × ℕ) :=
  (List.range 5).flatMap (fun g => shiftNet (5 * g) sort5group_net)

/-- `sort25` of `sorting/sorting.c`: sort the five 5-element groups with a
network, then finish with a full insertion-sort pass over all 25 slots. -/
def sort25 {α : Type} [LinearOrder α] (l : List α) : List α :=
  insertion_sort (runNet sort25_net l)

/-- Network stages of the hybrid `sort27` of `sorting/sorting.c`:
nine 3-element groups, then three 9-element groups. -/
def sort27h_net : List (ℕ × ℕ) :=
  (List.range 9).flatMap (fun g => shiftNet (3 * g) sort3_net) ++
  (List.range 3).flatMap (fun g => shiftNet (9 * g) sort9_net)

/-- `sort27` of `sorting/sorting.c` (hybrid): network stages followed by a
full insertion-sort pass over all 27 slots. -/
def sort27 {α : Type} [LinearOrder α] (l : List α) : List α :=
  insertion_sort (runNet sort27h_net l)

/-- Merge stage of the pure `sort27` of the top-level `ftools/sorting.c`
(the fixed SWAP sequence after the two block-sorting stages). -/
def sort27merge_net : List (ℕ × ℕ) := [(0,9),(1,10),(2,11),(3,12),(4,13),(5,14),(6,15),(7,16),(8,17),(9,18),(10,19),(11,20),(12,21),(13,22),(14,23),(15,24),(16,25),(17,26),(0,9),(1,10),(2,11),(3,12),(4,13),(5,14),(6,15),(7,16),(8,17),(1,9),(2,10),(3,11),(4,12),(5,13),(6,14),(7,15),(8,16),(10,18),(11,19),(12,20),(13,21),(14,22),(15,23),(16,24),(17,25),(2,9),(3,10),(4,11),(5,12),(6,13),(7,14),(8,15),(11,18),(12,19),(13,20),(14,21),(15,22),(16,23),(17,24),(3,9),(4,10),(5,11),(6,12),(7,13),(8,14),(12,18),(13,19),(14,20),(15,21),(16,22),(17,23),(4,9),(5,10),(6,11),(7,12),(8,13),(13,18),(14,19),(15,20),(16,21),(17,22),(5,9),(6,10),(7,11),(8,12),(14,18),(15,19),(16,20),(17,21),(6,9),(7,10),(8,11),(15,18),(16,19),(17,20),(7,9),(8,10),(16,18),(17,19),(8,9),(17,18)]

/-- The pure `sort27` of the top-level `ftools/sorting.c`: nine 3-element
groups (its own `sort3`), three 9-element groups, then the fixed merge
sequence.  A comparator network with no data-dependent branching. -/
def sort27pure_net : List (ℕ × ℕ) :=
  (List.range 9).flatMap (fun g => shiftNet (3 * g) sort3t_net) ++
  (List.range 3).flatMap (fun g => shiftNet (9 * g) sort9_net) ++
  sort27merge_net

/-- `sort27b` of `sorting/sorting.c`: the complete 27-element comparator
network (147 SWAPs; the file comment says 114). -/
def sort27b_net : List (ℕ × ℕ) := [(0,1),(2,3),(4,5),(6,7),(8,9),(10,11),(12,14),(15,16),(17,18),(19,20),(21,22),(23,24),(25,26),(0,2),(1,3),(4,6),(5,7),(8,10),(9,11),(12,13),(15,17),(16,18),(19,21),(20,22),(23,25),(24,26),(0,23),(1,24),(2,25),(3,26),(4,8),(5,9),(6,10),(7,11),(13,14),(15,19),(16,20),(17,21),(18,22),(0,4),(1,6),(2,19),(3,20),(5,13),(9,21),(11,14),(12,16),(17,23),(18,24),(22,26),(5,17),(6,16),(7,22),(9,25),(10,24),(12,15),(13,20),(14,26),(1,12),(4,15),(7,23),(10,19),(11,16),(13,18),(20,24),(22,25),(0,1),(6,12),(8,11),(9,15),(10,17),(14,24),(16,21),(18,19),(1,4),(2,8),(3,11),(12,15),(14,20),(16,22),(21,25),(2,5),(3,17),(8,13),(11,23),(21,22),(24,25),(1,2),(3,10),(5,6),(7,13),(11,15),(14,21),(18,23),(20,22),(4,5),(6,9),(7,8),(13,17),(14,16),(19,23),(22,24),(2,4),(3,6),(5,7),(8,12),(9,10),(11,13),(14,18),(15,17),(16,19),(21,23),(3,5),(6,8),(7,9),(10,12),(11,14),(13,16),(15,18),(17,19),(20,21),(22,23),(5,6),(8,11),(9,10),(12,14),(13,15),(17,18),(19,21),(4,5),(6,7),(8,9),(10,11),(12,13),(14,15),(16,17),(18,20),(21,22),(3,4),(5,6),(7,8),(9,10),(11,12),(13,14),(15,16),(17,18),(19,20)]

/-- `qsort(values, count, sizeof(double), compare_double)`: libc qsort is
external to the repository and is modelled by its contract; with
`compare_double` it sorts ascending in the value order. -/
def qsortDoubles {α : Type} [LinearOrder α] (l : List α) : List α := referenceSort l

/-- `sort_doubles` of `sorting/sorting.c`: the adaptive dispatcher.
`count <= 1` is a no-op; the `switch (count)` selects a dedicated network
for 2, 3, 4, 9, the hybrid `sort25`/`sort27` for 25 and 27; other counts
below 40 use `insertion_sort`, the rest `qsort`. -/
def sort_doubles {α : Type} [LinearOrder α] (l : List α) : List α :=
  if l.length ≤ 1 then l
  else if l.length = 2 then runNet sort2_net l
  else if l.length = 3 then runNet sort3_net l
  else if l.length = 4 then runNet sort4_net l
  else if l.length = 9 then runNet sort9_net l
  else if l.length = 25 then sort25 l
  else if l.length = 27 then sort27 l
  else if l.length < 40 then insertion_sort l
  else qsortDoubles l

/-! ### Exhaustive 0/1 verification of the small dedicated networks -/

set_option maxRecDepth 100000

theorem sort2_net_check : allMasksCheck sort2_net 2 (2 ^ 2) = true := by decide

theorem sort3_net_check : allMasksCheck sort3_net 3 (2 ^ 3) = true := by decide

theorem sort4_net_check : allMasksCheck sort4_net 4 (2 ^ 4) = true := by decide

theorem sort9_net_check : allMasksCheck sort9_net 9 (2 ^ 9) = true := by decide

theorem sort2_net_sorts {α : Type} [LinearOrder α] (l : List α) (h : l.length = 2) :
    (runNet sort2_net l).Sorted (· ≤ ·) :=
  sorted_runNet_of_maskCheck sort2_net 2 (by decide) sort2_net_check l h

theorem sort3_net_sorts {α : Type} [LinearOrder α] (l : List α) (h : l.length = 3) :
    (runNet sort3_net l).Sorted (· ≤ ·) :=
  sorted_runNet_of_maskCheck sort3_net 3 (by decide) sort3_net_check l h

theorem sort4_net_sorts {α : Type} [LinearOrder α] (l : List α) (h : l.length = 4) :
    (runNet sort4_net l).Sorted (· ≤ ·) :=
  sorted_runNet_of_maskCheck sort4_net 4 (by decide) sort4_net_check l h

theorem sort9_net_sorts {α : Type} [LinearOrder α] (l : List α) (h : l.length = 9) :
    (runNet sort9_net l).Sorted (· ≤ ·) :=
  sorted_runNet_of_maskCheck sort9_net 9 (by decide) sort9_net_check l h

/-! ### Correctness of the hybrid sorters and the dispatcher -/

theorem sort25_eq_referenceSort {α : Type} [LinearOrder α] (l : List α) :
    sort25 l = referenceSort l :=
  eq_referenceSort
    ((insertion_sort_perm (runNet sort25_net l)).trans
      (runNet_perm sort25_net l (by decide)))
    (insertion_sort_sorted (runNet sort25_net l))

theorem sort27_eq_referenceSort {α : Type} [LinearOrder α] (l : List α) :
    sort27 l = referenceSort l :=
  eq_referenceSort
    ((insertion_sort_perm (runNet sort27h_net l)).trans
      (runNet_perm sort27h_net l (by decide)))
    (insertion_sort_sorted (runNet sort27h_net l))

theorem insertion_sort_eq_referenceSort {α : Type} [LinearOrder α] (l : List α) :
    insertion_sort l = referenceSort l :=
  eq_referenceSort (insertion_sort_perm l) (insertion_sort_sorted l)

theorem sort_doubles_spec {α : Type} [LinearOrder α] (l : List α) :
    sort_doubles l = referenceSort l := by
  unfold sort_doubles
  split_ifs with h1 h2 h3 h4 h5 h6 h7 h8
  · exact eq_referenceSort (List.Perm.refl l) (sorted_of_length_le_one l h1)
  · exact eq_referenceSort (runNet_perm sort2_net l (by decide)) (sort2_net_sorts l h2)
  · exact eq_referenceSort (runNet_perm sort3_net l (by decide)) (sort3_net_sorts l h3)
  · exact eq_referenceSort (runNet_perm sort4_net l (by decide)) (sort4_net_sorts l h4)
  · exact eq_referenceSort (runNet_perm sort9_net l (by decide)) (sort9_net_sorts l h5)
  · exact sort25_eq_referenceSort l
  · exact sort27_eq_referenceSort l
  · exact insertion_sort_eq_referenceSort l
  · rfl

/-! ### fmedian_ext.c: comparator, median extractor, collector, driver

Grids are modelled as functions from coordinates to values: the input
grid holds int16 samples (`ℤ`, with the int16 range tracked where it
matters), the output grid float64 samples (`ℚ`; every double produced by
the filter — int16 values and half-integer means — is an exact rational).
Strided addressing reads and writes whole cells only, so the function
model captures it; input and output are addressed independently. -/

/-- Wrap an integer to the signed 32-bit `int` range, as C arithmetic on
`int` does. -/
def wrap32 (z : ℤ) : ℤ := (z + 2 ^ 31) % 2 ^ 32 - 2 ^ 31

/-- `compare_int16(a, b)`: both `int16_t` operands are promoted to `int`
and subtracted; the result is that `int`. -/
def compare_int16 (a b : ℤ) : ℤ := wrap32 (a - b)

/-- `compute_median(values, count)`: result value and buffer contents
after the call.  `count == 0` returns `0.0` without touching the buffer;
otherwise the buffer is sorted with `qsort`/`compare_int16` (libc qsort
modelled by contract; `compare_int16` orders int16 values by value, see
`compare_int16_spec_c10`) and the middle element (odd count) or the mean
of the two middle elements (even count) is returned.  The C mean
`(values[count/2 - 1] + values[count/2]) / 2.0` adds two int16 values as
`int` (exact) and divides by `2.0` as double (exact for these
magnitudes), so the rational model is exact. -/
def compute_median (values : List ℤ) : ℚ × List ℤ :=
  if values.length = 0 then (0, values)
  else if values.length % 2 = 0 then
    ((((referenceSort values).getD (values.length / 2 - 1) 0 +
       (referenceSort values).getD (values.length / 2) 0 : ℤ) : ℚ) / 2,
     referenceSort values)
  else
    ((((referenceSort values).getD (values.length / 2) 0 : ℤ) : ℚ),
     referenceSort values)

/-- Window offsets `-s .. s` along one axis, in loop order. -/
def offsetRange (s : ℕ) : List ℤ :=
  (List.range (2 * s + 1)).map (fun (k : ℕ) => (k : ℤ) - (s : ℤ))

/-- All window offsets `(dy, dx)` in loop order (`dy` outer, `dx` inner). -/
def windowOffsets (ysize xsize : ℕ) : List (ℤ × ℤ) :=
  (offsetRange ysize) ×ˢ (offsetRange xsize)

/-- Body of the collector loop for one offset: compute the candidate
coordinate, skip it when outside `[0,height) × [0,width)`, otherwise fetch
the value and admit it when
`fabs((double)(neighbor_value - center_value)) < threshold`.  The int16
subtraction is performed after promotion to `int` (exact) and the cast to
double is exact, so the test is the exact rational comparison. -/
def admitNeighbor (inp : ℕ → ℕ → ℤ) (height width : ℕ) (thr : ℚ) (y x : ℕ)
    (p : ℤ × ℤ) : Option ℤ :=
  if 0 ≤ (y : ℤ) + p.1 ∧ (y : ℤ) + p.1 < height ∧
      0 ≤ (x : ℤ) + p.2 ∧ (x : ℤ) + p.2 < width then
    (if |((inp ((y : ℤ) + p.1).toNat ((x : ℤ) + p.2).toNat - inp y x : ℤ) : ℚ)| < thr
     then some (inp ((y : ℤ) + p.1).toNat ((x : ℤ) + p.2).toNat) else none)
  else none

/-- The Neighbor Collector: the nested `dy`/`dx` loops append the admitted
values to the buffer in loop order. -/
def collectNeighbors (inp : ℕ → ℕ → ℤ) (height width xsize ysize : ℕ) (thr : ℚ)
    (y x : ℕ) : List ℤ :=
  (windowOffsets ysize xsize).filterMap (admitNeighbor inp height width thr y x)

/-- Writing one output cell, with the output grid addressed by its own
coordinates. -/
def writeCell (out : ℕ → ℕ → ℚ) (y x : ℕ) (v : ℚ) : ℕ → ℕ → ℚ :=
  fun y0 x0 => if y0 = y ∧ x0 = x then v else out y0 x0

/-- All grid cells in the driver's loop order (`y` outer, `x` inner). -/
def gridCells (height width : ℕ) : List (ℕ × ℕ) :=
  (List.range height) ×ˢ (List.range width)

/-- The per-pixel pass of `fmedian`: for every cell, collect the admitted
neighbors, compute their median and store it at the same coordinates of
the output grid, starting from the initial output contents `out0`. -/
def fmedianLoop (inp : ℕ → ℕ → ℤ) (height width xsize ysize : ℕ) (thr : ℚ)
    (out0 : ℕ → ℕ → ℚ) : ℕ → ℕ → ℚ :=
  (gridCells height width).foldl
    (fun out c => writeCell out c.1 c.2
      (compute_median (collectNeighbors inp height width xsize ysize thr c.1 c.2)).1) out0

/-- The error conditions of `fmedian`, in source order. -/
inductive FmedianError
  | notTwoDim
  | shapeMismatch
  | inputTypeBad
  | outputTypeBad
  | allocFailed
deriving DecidableEq

/-- numpy type code of int16 (`NPY_SHORT`). -/
def npyInt16 : ℕ := 3

/-- numpy type code of float64 (`NPY_DOUBLE`). -/
def npyFloat64 : ℕ := 12

/-- Arguments of one `fmedian` invocation, including the marshalled
metadata the C code validates and a flag for whether the `malloc` of the
neighbor buffer succeeds. -/
structure FmedianArgs where
  ndimIn : ℕ
  ndimOut : ℕ
  hIn : ℕ
  wIn : ℕ
  hOut : ℕ
  wOut : ℕ
  tyIn : ℕ
  tyOut : ℕ
  allocOk : Bool
  inp : ℕ → ℕ → ℤ
  out0 : ℕ → ℕ → ℚ
  xsize : ℕ
  ysize : ℕ
  thr : ℚ

/-- The `fmedian` entry point: the validation sequence of the source in
order (dimensionality, shape equality, input type, output type, buffer
allocation), each failure returning its error with the output grid
untouched; on success the per-pixel pass runs over every cell. -/
def fmedian (a : FmedianArgs) : Option FmedianError × (ℕ → ℕ → ℚ) :=
  if ¬ (a.ndimIn = 2 ∧ a.ndimOut = 2) then (some .notTwoDim, a.out0)
  else if ¬ (a.hIn = a.hOut ∧ a.wIn = a.wOut) then (some .shapeMismatch, a.out0)
  else if ¬ a.tyIn = npyInt16 then (some .inputTypeBad, a.out0)
  else if ¬ a.tyOut = npyFloat64 then (some .outputTypeBad, a.out0)
  else if ¬ a.allocOk = true then (some .allocFailed, a.out0)
  else (none, fmedianLoop a.inp a.hIn a.wIn a.xsize a.ysize a.thr a.out0)

/-! ### Properties of the collector and the driver -/

/-- The candidate coordinate `(y + dy, x + dx)` of one window offset. -/
def nbrCoord (y x : ℕ) (p : ℤ × ℤ) : ℤ × ℤ := ((y : ℤ) + p.1, (x : ℤ) + p.2)

/-- The bounds test of the collector: the candidate lies in
`[0, height) × [0, width)`. -/
def inBounds (height width : ℕ) (q : ℤ × ℤ) : Prop :=
  0 ≤ q.1 ∧ q.1 < height ∧ 0 ≤ q.2 ∧ q.2 < width

instance (height width : ℕ) (q : ℤ × ℤ) : Decidable (inBounds height width q) := by
  unfold inBounds; infer_instance

/-- The input sample at an in-bounds candidate coordinate. -/
def valueAt (inp : ℕ → ℕ → ℤ) (q : ℤ × ℤ) : ℤ := inp q.1.toNat q.2.toNat

theorem admitNeighbor_eq_if (inp : ℕ → ℕ → ℤ) (height width : ℕ) (thr : ℚ) (y x : ℕ)
    (p : ℤ × ℤ) :
    admitNeighbor inp height width thr y x p =
      if inBounds height width (nbrCoord y x p) ∧
          |((valueAt inp (nbrCoord y x p) - inp y x : ℤ) : ℚ)| < thr
      then some (valueAt inp (nbrCoord y x p)) else none := by
  unfold admitNeighbor inBounds nbrCoord valueAt
  by_cases h1 : 0 ≤ (y : ℤ) + p.1 ∧ (y : ℤ) + p.1 < height ∧
      0 ≤ (x : ℤ) + p.2 ∧ (x : ℤ) + p.2 < width
  · simp [h1]
  · simp [h1]

theorem filterMap_if_eq_filter_map {β γ : Type} (f : β → γ) (P : β → Prop)
    [DecidablePred P] (l : List β) :
    l.filterMap (fun b => if P b then some (f b) else none) =
      (l.filter (fun b => decide (P b))).map f := by
  induction l with
  | nil => rfl
  | cons b t ih =>
    by_cases h : P b
    · simp [h, ih]
    · simp [h, ih]

theorem foldl_write_not_mem (g : ℕ × ℕ → ℚ) :
    ∀ (cs : List (ℕ × ℕ)) (out : ℕ → ℕ → ℚ) (y x : ℕ), (y, x) ∉ cs →
      (cs.foldl (fun out c => writeCell out c.1 c.2 (g c)) out) y x = out y x := by
  intro cs
  induction cs with
  | nil => intro out y x _; rfl
  | cons c t ih =>
    intro out y x h
    rw [List.mem_cons, not_or] at h
    rw [List.foldl_cons, ih _ y x h.2]
    unfold writeCell
    have hne : ¬ (y = c.1 ∧ x = c.2) := by
      intro hc
      exact h.1 (Prod.ext hc.1 hc.2)
    simp [hne]

theorem foldl_write_mem (g : ℕ × ℕ → ℚ) :
    ∀ (cs : List (ℕ × ℕ)) (out : ℕ → ℕ → ℚ) (y x : ℕ), (y, x) ∈ cs → cs.Nodup →
      (cs.foldl (fun out c => writeCell out c.1 c.2 (g c)) out) y x = g (y, x) := by
  intro cs
  induction cs with
  | nil => intro out y x h _; simp at h
  | cons c t ih =>
    intro out y x h hnd
    rw [List.nodup_cons] at hnd
    rcases List.mem_cons.mp h with h1 | h1
    · rw [List.foldl_cons, foldl_write_not_mem g t _ y x (h1 ▸ hnd.1)]
      unfold writeCell
      rw [← h1]
      simp
    · rw [List.foldl_cons]
      exact ih _ y x h1 hnd.2

theorem gridCells_nodup (height width : ℕ) : (gridCells height width).Nodup :=
  (List.nodup_range height).product (List.nodup_range width)

theorem mem_gridCells (height width y x : ℕ) :
    (y, x) ∈ gridCells height width ↔ y < height ∧ x < width := by
  unfold gridCells
  rw [List.mem_product, List.mem_range, List.mem_range]

/-- The value the driver leaves at an in-range output cell: exactly the
median of that cell's admitted-neighbor list, whatever the initial output
contents were. -/
theorem fmedianLoop_cell (inp : ℕ → ℕ → ℤ) (height width xsize ysize : ℕ) (thr : ℚ)
    (out0 : ℕ → ℕ → ℚ) (y x : ℕ) (hy : y < height) (hx : x < width) :
    fmedianLoop inp height width xsize ysize thr out0 y x =
      (compute_median (collectNeighbors inp height width xsize ysize thr y x)).1 := by
  unfold fmedianLoop
  exact foldl_write_mem _ (gridCells height width) out0 y x
    ((mem_gridCells height width y x).mpr ⟨hy, hx⟩) (gridCells_nodup height width)

/-- Declarative form of the collector: the admitted list is exactly the
values at the offsets that pass the bounds test and the strict threshold
test, in loop order. -/
theorem collectNeighbors_filter_spec (inp : ℕ → ℕ → ℤ) (height width xsize ysize : ℕ)
    (thr : ℚ) (y x : ℕ) :
    collectNeighbors inp height width xsize ysize thr y x =
      ((windowOffsets ysize xsize).filter
        (fun p => decide (inBounds height width (nbrCoord y x p) ∧
          |((valueAt inp (nbrCoord y x p) - inp y x : ℤ) : ℚ)| < thr))).map
        (fun p => valueAt inp (nbrCoord y x p)) := by
  unfold collectNeighbors
  rw [show admitNeighbor inp height width thr y x =
      (fun p => if inBounds height width (nbrCoord y x p) ∧
          |((valueAt inp (nbrCoord y x p) - inp y x : ℤ) : ℚ)| < thr
        then some (valueAt inp (nbrCoord y x p)) else none)
    from funext (admitNeighbor_eq_if inp height width thr y x)]
  exact filterMap_if_eq_filter_map _ _ _

theorem length_windowOffsets (ysize xsize : ℕ) :
    (windowOffsets ysize xsize).length = (2 * ysize + 1) * (2 * xsize + 1) := by
  unfold windowOffsets offsetRange
  rw [List.length_product, List.length_map, List.length_map,
    List.length_range, List.length_range]

/-- The collector admits at most one value per window offset, so the
buffer use never exceeds the window area. -/
theorem collectNeighbors_length_le (inp : ℕ → ℕ → ℤ) (height width xsize ysize : ℕ)
    (thr : ℚ) (y x : ℕ) :
    (collectNeighbors inp height width xsize ysize thr y x).length ≤
      (2 * xsize + 1) * (2 * ysize + 1) := by
  unfold collectNeighbors
  calc (List.filterMap (admitNeighbor inp height width thr y x)
        (windowOffsets ysize xsize)).length
      ≤ (windowOffsets ysize xsize).length := List.length_filterMap_le _ _
    _ = (2 * xsize + 1) * (2 * ysize + 1) := by
        rw [length_windowOffsets]; ring

theorem zero_mem_offsetRange (s : ℕ) : (0 : ℤ) ∈ offsetRange s := by
  unfold offsetRange
  rw [List.mem_map]
  exact ⟨s, List.mem_range.mpr (by omega), by simp⟩

theorem offsetRange_nodup (s : ℕ) : (offsetRange s).Nodup := by
  unfold offsetRange
  exact (List.nodup_range (2 * s + 1)).map (fun a b hab => by omega)

theorem windowOffsets_nodup (ysize xsize : ℕ) : (windowOffsets ysize xsize).Nodup :=
  (offsetRange_nodup ysize).product (offsetRange_nodup xsize)

theorem zero_mem_windowOffsets (ysize xsize : ℕ) :
    ((0 : ℤ), (0 : ℤ)) ∈ windowOffsets ysize xsize := by
  unfold windowOffsets
  exact List.mem_product.mpr ⟨zero_mem_offsetRange ysize, zero_mem_offsetRange xsize⟩

/-- With a positive threshold the zero-offset candidate is always
admitted: it is in bounds and its difference from the center is `0`. -/
theorem center_mem_collectNeighbors (inp : ℕ → ℕ → ℤ) (height width xsize ysize : ℕ)
    (thr : ℚ) (y x : ℕ) (hy : y < height) (hx : x < width) (hthr : 0 < thr) :
    inp y x ∈ collectNeighbors inp height width xsize ysize thr y x := by
  unfold collectNeighbors
  rw [List.mem_filterMap]
  refine ⟨((0 : ℤ), (0 : ℤ)), zero_mem_windowOffsets ysize xsize, ?_⟩
  unfold admitNeighbor
  have h1 : (0 : ℤ) ≤ (y : ℤ) + 0 ∧ (y : ℤ) + 0 < height ∧
      (0 : ℤ) ≤ (x : ℤ) + 0 ∧ (x : ℤ) + 0 < width := by
    constructor
    · omega
    constructor
    · omega
    constructor
    · omega
    · omega
  rw [if_pos h1]
  have h2 : ((y : ℤ) + 0).toNat = y := by omega
  have h3 : ((x : ℤ) + 0).toNat = x := by omega
  rw [h2, h3, sub_self]
  simpa using hthr

theorem filter_eq_singleton_of_nodup {β : Type} [DecidableEq β] :
    ∀ (l : List β) (a : β), l.Nodup → a ∈ l →
      l.filter (fun x => decide (x = a)) = [a] := by
  intro l
  induction l with
  | nil => intro a _ ha; simp at ha
  | cons b t ih =>
    intro a hnd ha
    rw [List.nodup_cons] at hnd
    rcases List.mem_cons.mp ha with h | h
    · rw [List.filter_cons, if_pos (by simp [h])]
      have hnil : t.filter (fun x => decide (x = a)) = [] := by
        rw [List.filter_eq_nil_iff]
        intro c hc
        simp only [decide_eq_true_eq]
        intro hca
        exact hnd.1 (by rw [← h, ← hca]; exact hc)
      rw [hnil, h]
    · have hba : ¬ (b = a) := by
        intro hba
        exact hnd.1 (hba ▸ h)
      rw [List.filter_cons, if_neg (by simpa using hba)]
      exact ih a hnd.2 h

theorem compute_median_single (v : ℤ) : compute_median [v] = (((v : ℤ) : ℚ), [v]) := by
  unfold compute_median referenceSort
  norm_num [List.insertionSort, List.orderedInsert]

/-- On a 1×1 grid every nonzero offset is clipped, so with a positive
threshold exactly the center survives. -/
theorem collectNeighbors_one_one (inp : ℕ → ℕ → ℤ) (xsize ysize : ℕ) (thr : ℚ)
    (hthr : 0 < thr) :
    collectNeighbors inp 1 1 xsize ysize thr 0 0 = [inp 0 0] := by
  rw [collectNeighbors_filter_spec]
  have hcongr : ∀ p ∈ windowOffsets ysize xsize,
      (decide (inBounds 1 1 (nbrCoord 0 0 p) ∧
        |((valueAt inp (nbrCoord 0 0 p) - inp 0 0 : ℤ) : ℚ)| < thr)) =
      (decide (p = ((0 : ℤ), (0 : ℤ)))) := by
    intro p _
    rw [decide_eq_decide]
    constructor
    · rintro ⟨hb, _⟩
      unfold inBounds nbrCoord at hb
      simp only [Nat.cast_zero, Nat.cast_one, zero_add] at hb
      rw [Prod.ext_iff]
      constructor
      · omega
      · omega
    · rintro rfl
      constructor
      · unfold inBounds nbrCoord
        norm_num
      · unfold valueAt nbrCoord
        norm_num
        exact hthr
  rw [List.filter_congr hcongr]
  rw [filter_eq_singleton_of_nodup (windowOffsets ysize xsize) ((0 : ℤ), (0 : ℤ))
    (windowOffsets_nodup ysize xsize) (zero_mem_windowOffsets ysize xsize)]
  unfold valueAt nbrCoord
  norm_num

/-! ### Claim theorems -/

/-- The 0/1 input on which the pure 27-element network of
`src/src/ftools/sorting.c` fails. -/
def badInput27 : List ℤ :=
  [1, 1, 1, 1, 1, 1, 1, 1, 0, 1, 1, 1, 1, 1, 0, 0, 0, 0, 1, 0, 0, 0, 0, 0, 0, 0, 0]

/-- C1: the claim states that every dedicated comparator network sorts
every input of its designed length, and in particular that the pure
27-element network (nine 3-element groups, three 9-element groups, then a
fixed merge sequence — `sort27` of `src/src/ftools/sorting.c`) fully
sorts every permutation of 27 values.  This theorem refutes that for the
pure 27-element network: on the concrete 0/1 input `badInput27` its
output is not sorted (it leaves a 1 at index 12 before a 0 at index 13)
and differs from the reference comparison sort.  (The smaller networks
`sort3`, `sort4`, `sort9` do sort everything — see `sort_doubles_spec`'s
ingredients — so the spec requirement is met by them and broken only by
this network.) -/
theorem sort27pure_fails_c1 :
    ¬ (runNet sort27pure_net badInput27).Sorted (· ≤ ·) ∧
    runNet sort27pure_net badInput27 ≠ referenceSort badInput27 := by
  constructor
  · decide
  · decide

/-- C2: for every list of at most 125 values, `sort_doubles` sorts it
ascending, element-for-element identical to the reference comparison
sort, whichever branch the dispatch policy selects (no-op, dedicated
network, hybrid network, insertion sort, or qsort). -/
theorem sort_doubles_correct_c2 (l : List ℤ) (_h125 : l.length ≤ 125) :
    sort_doubles l = referenceSort l :=
  sort_doubles_spec l

theorem sort_doubles_correct_c2_witness :
    ([3, 1, 2] : List ℤ).length ≤ 125 ∧
    sort_doubles ([3, 1, 2] : List ℤ) = referenceSort ([3, 1, 2] : List ℤ) :=
  ⟨by decide, sort_doubles_correct_c2 [3, 1, 2] (by decide)⟩

/-- C3: on every successful invocation, the driver leaves at every cell
`(y, x)` of the output grid exactly the median of that cell's
admitted-neighbor list; the initial output contents (part of the
arguments) never show through, so every cell is overwritten. -/
theorem fmedian_writes_median_c3 (a : FmedianArgs) (y x : ℕ)
    (hok : (fmedian a).1 = none) (hy : y < a.hIn) (hx : x < a.wIn) :
    (fmedian a).2 y x =
      (compute_median (collectNeighbors a.inp a.hIn a.wIn a.xsize a.ysize a.thr y x)).1 := by
  unfold fmedian at hok ⊢
  split_ifs at hok ⊢
  exact fmedianLoop_cell a.inp a.hIn a.wIn a.xsize a.ysize a.thr a.out0 y x hy hx

/-- Concrete grid used by the driver witnesses. -/
def witnessInput : ℕ → ℕ → ℤ := fun _ _ => 7

/-- Concrete initial output contents used by the driver witnesses. -/
def witnessOutput0 : ℕ → ℕ → ℚ := fun _ _ => 0

/-- A valid 1×1 invocation. -/
def argsOk : FmedianArgs :=
  ⟨2, 2, 1, 1, 1, 1, npyInt16, npyFloat64, true, witnessInput, witnessOutput0, 1, 1, 1⟩

/-- An invocation with a 3-dimensional input array. -/
def argsBad : FmedianArgs :=
  ⟨3, 2, 1, 1, 1, 1, npyInt16, npyFloat64, true, witnessInput, witnessOutput0, 1, 1, 1⟩

theorem fmedian_writes_median_c3_witness :
    (fmedian argsOk).1 = none ∧ 0 < argsOk.hIn ∧ 0 < argsOk.wIn ∧
    (fmedian argsOk).2 0 0 =
      (compute_median (collectNeighbors argsOk.inp argsOk.hIn argsOk.wIn
        argsOk.xsize argsOk.ysize argsOk.thr 0 0)).1 :=
  ⟨rfl, by decide, by decide,
    fmedian_writes_median_c3 argsOk 0 0 rfl (by decide) (by decide)⟩

/-- C4: `compute_median` returns `0` for an empty list, the middle
element at 0-indexed position `count / 2` of the sorted list for odd
counts, the mean of the sorted elements at positions `count / 2 - 1` and
`count / 2` for even counts, and as a side effect leaves the buffer
holding the sorted permutation of its input.  Stated against any sorted
permutation `s` of the input (over a linear order there is exactly
one). -/
theorem compute_median_spec_c4 (l s : List ℤ) (hp : s.Perm l) (hs : s.Sorted (· ≤ ·)) :
    (compute_median l).1 =
      (if l.length = 0 then (0 : ℚ)
       else if l.length % 2 = 0 then
         ((s.getD (l.length / 2 - 1) 0 + s.getD (l.length / 2) 0 : ℤ) : ℚ) / 2
       else ((s.getD (l.length / 2) 0 : ℤ) : ℚ)) ∧
    (compute_median l).2 = s := by
  have hse : s = referenceSort l := eq_referenceSort hp hs
  subst hse
  constructor
  · by_cases h0 : l.length = 0
    · simp [compute_median, h0]
    · by_cases he : l.length % 2 = 0
      · simp [compute_median, h0, he]
      · simp [compute_median, h0, he]
  · by_cases h0 : l.length = 0
    · have hnil : l = [] := List.length_eq_zero.mp h0
      subst hnil
      simp [compute_median, referenceSort, List.insertionSort]
    · by_cases he : l.length % 2 = 0
      · simp [compute_median, h0, he]
      · simp [compute_median, h0, he]

theorem compute_median_spec_c4_witness :
    ([1, 2, 3] : List ℤ).Perm [1, 3, 2] ∧ ([1, 2, 3] : List ℤ).Sorted (· ≤ ·) ∧
    (compute_median ([1, 3, 2] : List ℤ)).1 = 2 ∧
    (compute_median ([1, 3, 2] : List ℤ)).2 = [1, 2, 3] := by
  have h := compute_median_spec_c4 [1, 3, 2] [1, 2, 3] (by decide) (by decide)
  refine ⟨by decide, by decide, ?_, h.2⟩
  rw [h.1]
  norm_num

/-- C5: the collector admits the candidate at a window offset exactly
when the candidate coordinate lies in `[0, height) × [0, width)` and the
absolute difference from the center value is strictly below the
threshold: the admitted list is precisely the values at the offsets
passing that conjunction, in loop order.  A difference equal to the
threshold fails the strict test, and out-of-bounds offsets are merely
filtered out. -/
theorem collector_admission_c5 (inp : ℕ → ℕ → ℤ) (height width xsize ysize : ℕ)
    (thr : ℚ) (y x : ℕ) :
    collectNeighbors inp height width xsize ysize thr y x =
      ((windowOffsets ysize xsize).filter
        (fun p => decide (inBounds height width (nbrCoord y x p) ∧
          |((valueAt inp (nbrCoord y x p) - inp y x : ℤ) : ℚ)| < thr))).map
        (fun p => valueAt inp (nbrCoord y x p)) :=
  collectNeighbors_filter_spec inp height width xsize ysize thr y x

/-- C6 counterexample: with threshold exactly `0` (a valid, non-negative
threshold) even the zero-offset candidate fails the strict test
`|center - center| < 0`, so the admitted count is `0`, not at least 1:
the claim as stated is false. -/
theorem center_not_admitted_c6_counterexample :
    (collectNeighbors (fun _ _ => 5) 1 1 1 1 0 0 0).length = 0 := by decide

/-- C6 amended: for every invocation with a strictly positive threshold,
the center cell's own value is admitted (the zero-offset candidate always
passes), so the admitted count is at least 1 for every cell. -/
theorem center_admitted_c6_amended (inp : ℕ → ℕ → ℤ) (height width xsize ysize : ℕ)
    (thr : ℚ) (y x : ℕ) (hy : y < height) (hx : x < width) (hthr : 0 < thr) :
    inp y x ∈ collectNeighbors inp height width xsize ysize thr y x ∧
    1 ≤ (collectNeighbors inp height width xsize ysize thr y x).length := by
  have hmem := center_mem_collectNeighbors inp height width xsize ysize thr y x hy hx hthr
  exact ⟨hmem, List.length_pos.mpr (List.ne_nil_of_mem hmem)⟩

theorem center_admitted_c6_witness :
    0 < 1 ∧ 0 < 1 ∧ (0 : ℚ) < 1 ∧
    ((fun _ _ => (5 : ℤ)) 0 0 ∈ collectNeighbors (fun _ _ => (5 : ℤ)) 1 1 1 1 1 0 0 ∧
      1 ≤ (collectNeighbors (fun _ _ => (5 : ℤ)) 1 1 1 1 1 0 0).length) :=
  ⟨by decide, by decide, by norm_num,
    center_admitted_c6_amended (fun _ _ => (5 : ℤ)) 1 1 1 1 1 0 0
      (by decide) (by decide) (by norm_num)⟩

/-- C7 counterexample: on a 1×1 grid with half-extents 1 and threshold
exactly `0`, no candidate is admitted, so the single output cell receives
the zero-count default `0` rather than the input value `5`: the claim as
stated is false. -/
theorem one_by_one_c7_counterexample :
    fmedianLoop (fun _ _ => 5) 1 1 1 1 0 (fun _ _ => 0) 0 0 = 0 ∧
    fmedianLoop (fun _ _ => 5) 1 1 1 1 0 (fun _ _ => 0) 0 0 ≠ (((5 : ℤ) : ℚ)) := by
  constructor
  · decide
  · decide

/-- C7 amended: filtering a 1×1 grid with any window half-extents and a
strictly positive threshold admits exactly the center value for the
single cell, and the single output cell equals the input value as a
rational (the exact value of the double). -/
theorem one_by_one_c7_amended (inp : ℕ → ℕ → ℤ) (xsize ysize : ℕ) (thr : ℚ)
    (out0 : ℕ → ℕ → ℚ) (_hxs : 0 < xsize) (_hys : 0 < ysize) (hthr : 0 < thr) :
    collectNeighbors inp 1 1 xsize ysize thr 0 0 = [inp 0 0] ∧
    fmedianLoop inp 1 1 xsize ysize thr out0 0 0 = ((inp 0 0 : ℤ) : ℚ) := by
  have h1 := collectNeighbors_one_one inp xsize ysize thr hthr
  refine ⟨h1, ?_⟩
  rw [fmedianLoop_cell inp 1 1 xsize ysize thr out0 0 0 one_pos one_pos, h1,
    compute_median_single]

theorem one_by_one_c7_witness :
    0 < 1 ∧ 0 < 1 ∧ (0 : ℚ) < 1 ∧
    (collectNeighbors (fun _ _ => (5 : ℤ)) 1 1 1 1 1 0 0 = [(fun _ _ => (5 : ℤ)) 0 0] ∧
      fmedianLoop (fun _ _ => (5 : ℤ)) 1 1 1 1 1 (fun _ _ => (0 : ℚ)) 0 0 =
        (((fun _ _ => (5 : ℤ)) 0 0 : ℤ) : ℚ)) :=
  ⟨by decide, by decide, by norm_num,
    one_by_one_c7_amended (fun _ _ => (5 : ℤ)) 1 1 1 (fun _ _ => (0 : ℚ))
      (by decide) (by decide) (by norm_num)⟩

/-- C8: whenever `fmedian` returns an error — wrong dimensionality,
shape mismatch, wrong element type of either grid, or allocation failure
of the neighbor buffer — the error is raised by the up-front validation
sequence before the per-pixel pass, and the output grid is exactly the
initial contents: never partially written. -/
theorem fmedian_error_atomic_c8 (a : FmedianArgs) (e : FmedianError)
    (herr : (fmedian a).1 = some e) : (fmedian a).2 = a.out0 := by
  unfold fmedian at herr ⊢
  split_ifs at herr ⊢ <;> rfl

theorem fmedian_error_atomic_c8_witness :
    (fmedian argsBad).1 = some FmedianError.notTwoDim ∧
    (fmedian argsBad).2 = argsBad.out0 :=
  ⟨rfl, fmedian_error_atomic_c8 argsBad FmedianError.notTwoDim rfl⟩

/-- C9: for every cell, the collector admits at most one value per window
offset, so the number of values written to the neighbor buffer never
exceeds the allocated capacity `(2*xsize + 1) * (2*ysize + 1)`: every
`neighbors[count++]` stays in bounds. -/
theorem neighbor_buffer_in_bounds_c9 (inp : ℕ → ℕ → ℤ) (height width xsize ysize : ℕ)
    (thr : ℚ) (y x : ℕ) :
    (collectNeighbors inp height width xsize ysize thr y x).length ≤
      (2 * xsize + 1) * (2 * ysize + 1) :=
  collectNeighbors_length_le inp height width xsize ysize thr y x

/-- C10: for int16 operands, `compare_int16` subtracts after promotion to
the 32-bit `int` type; the difference of two int16 values fits in `int`,
so no wrap-around occurs and the sign of the result is exactly the order
of the operands. -/
theorem compare_int16_spec_c10 (a b : ℤ)
    (ha1 : -32768 ≤ a) (ha2 : a ≤ 32767) (hb1 : -32768 ≤ b) (hb2 : b ≤ 32767) :
    compare_int16 a b = a - b ∧
    (compare_int16 a b < 0 ↔ a < b) ∧
    (compare_int16 a b = 0 ↔ a = b) ∧
    (0 < compare_int16 a b ↔ b < a) := by
  have h1 : compare_int16 a b = a - b := by
    unfold compare_int16 wrap32
    norm_num
    omega
  refine ⟨h1, ?_, ?_, ?_⟩ <;> rw [h1] <;> omega

theorem compare_int16_spec_c10_witness :
    -32768 ≤ (100 : ℤ) ∧ (100 : ℤ) ≤ 32767 ∧ -32768 ≤ (-3 : ℤ) ∧ (-3 : ℤ) ≤ 32767 ∧
    (compare_int16 100 (-3) = 100 - (-3) ∧
      (compare_int16 100 (-3) < 0 ↔ (100 : ℤ) < -3) ∧
      (compare_int16 100 (-3) = 0 ↔ (100 : ℤ) = -3) ∧
      (0 < compare_int16 100 (-3) ↔ (-3 : ℤ) < 100)) :=
  ⟨by norm_num, by norm_num, by norm_num, by norm_num,
    compare_int16_spec_c10 100 (-3) (by norm_num) (by norm_num) (by norm_num) (by norm_num)⟩

end Crtools
